import Mathlib

/-!
# Fund catalog retrieval: data model and client-side pagination

A shallow embedding of the fund-catalog retrieval front end
(`frontend/types/fund.ts`, `frontend/utils/api/funds.ts`,
`frontend/components/FundCatalog/useFundCatalog.ts`) together with a
spec-level model of the backend retrieval engine (normalizer and tiered
matching), whose Python sources are not part of this tree.

The React hook `useFundCatalog` is modelled as a step machine over an
explicit state record.  Each `fetchFunds` call is split into a start
step (the synchronous part of `loadInitial` / `loadMore` up to the
`await`) and a finish step (the `then` / `catch` continuation), so that
interleavings the real hook permits — a constraint change arriving while
a request is in flight, a failed reload — are expressible.
-/

/-! ## Data model (`frontend/types/fund.ts`) -/

/-- `FundSummary` from `frontend/types/fund.ts`. -/
structure FundSummary where
  fund_id : String
  fund_name : String
  amc_name : String
  category : Option String
  risk_level : Option String
deriving DecidableEq

/-- `FundListResponse` from `frontend/types/fund.ts`. -/
structure FundListResponse where
  items : List FundSummary
  next_cursor : Option String
  as_of_date : String
  data_snapshot_id : String
deriving DecidableEq

/-- `CatalogState` from `frontend/types/fund.ts`. -/
inductive CatalogState where
  | idle
  | loading_initial
  | loaded
  | error_initial
  | loading_more
  | error_load_more
  | end_of_results
deriving DecidableEq

/-! ## API client (`frontend/utils/api/funds.ts`) -/

/-- The four filter dimensions of `FundFilters`. -/
inductive FilterDim where
  | amc
  | category
  | risk
  | fee_band
deriving DecidableEq

/-- `FundFilters` from `frontend/utils/api/funds.ts`. -/
structure FundFilters where
  amc : List String
  category : List String
  risk : List String
  fee_band : List String
deriving DecidableEq

/-- Field access by dimension. -/
def FundFilters.get (f : FundFilters) : FilterDim → List String
  | .amc => f.amc
  | .category => f.category
  | .risk => f.risk
  | .fee_band => f.fee_band

/-- Field update by dimension (what the spread `\x7b ...prev, [type]: next \x7d` does). -/
def FundFilters.set (f : FundFilters) : FilterDim → List String → FundFilters
  | .amc, l => { f with amc := l }
  | .category, l => { f with category := l }
  | .risk, l => { f with risk := l }
  | .fee_band, l => { f with fee_band := l }

/-- The all-empty filter state (every dimension unconstrained). -/
def emptyFilters : FundFilters := ⟨[], [], [], []⟩

/-- `SortOption` from `frontend/utils/api/funds.ts`. -/
inductive SortOption where
  | name_asc
  | name_desc
  | fee_asc
  | fee_desc
  | risk_asc
  | risk_desc
deriving DecidableEq

/-- The wire string of a `SortOption` (its TypeScript string-literal value). -/
def sortWire : SortOption → String
  | .name_asc => "name_asc"
  | .name_desc => "name_desc"
  | .fee_asc => "fee_asc"
  | .fee_desc => "fee_desc"
  | .risk_asc => "risk_asc"
  | .risk_desc => "risk_desc"

/-- The query-parameter key of a filter dimension. -/
def dimKey : FilterDim → String
  | .amc => "amc"
  | .category => "category"
  | .risk => "risk"
  | .fee_band => "fee_band"

/-- JavaScript truthiness of an optional string (`undefined`, `null` and
the empty string are falsy). -/
def truthy : Option String → Bool
  | none => false
  | some c => c ≠ ""

/-- The query-string builder of `fetchFunds` (`funds.ts` lines 32-47),
as the ordered key/value list `URLSearchParams` accumulates: `limit` and
`sort` always, `cursor` and `q` only when truthy, then one repeated
parameter per filter value for each non-empty dimension.  `q` and
`filters` are optional parameters of `fetchFunds`; each absent filter
dimension contributes nothing, exactly like an empty one. -/
def buildParams (cursor : Option String) (limit : Nat) (q : Option String)
    (filters : Option FundFilters) (sort : SortOption) : List (String × String) :=
  [("limit", toString limit), ("sort", sortWire sort)]
    ++ (match cursor with
        | some c => if c ≠ "" then [("cursor", c)] else []
        | none => [])
    ++ (match q with
        | some t => if t ≠ "" then [("q", t)] else []
        | none => [])
    ++ (match filters with
        | some f =>
          (f.amc.map (fun v => ("amc", v)))
            ++ (f.category.map (fun v => ("category", v)))
            ++ (f.risk.map (fun v => ("risk", v)))
            ++ (f.fee_band.map (fun v => ("fee_band", v)))
        | none => [])

/-- All values carried by a given key, in order (how a server reads a
repeated query parameter). -/
def valuesOf (k : String) (ps : List (String × String)) : List String :=
  ps.filterMap (fun p => if p.1 = k then some p.2 else none)

/-- Whether a key occurs at all in the parameter list. -/
def hasKey (k : String) (ps : List (String × String)) : Bool :=
  ps.any (fun p => p.1 = k)

/-- First value of a key, if any (how a server reads a scalar query
parameter). -/
def firstValue (k : String) (ps : List (String × String)) : Option String :=
  (ps.find? (fun p => p.1 = k)).map (fun p => p.2)

/-- Parse a sort wire string back into a `SortOption`. -/
def parseSort (s : String) : Option SortOption :=
  if s = "name_asc" then some .name_asc
  else if s = "name_desc" then some .name_desc
  else if s = "fee_asc" then some .fee_asc
  else if s = "fee_desc" then some .fee_desc
  else if s = "risk_asc" then some .risk_asc
  else if s = "risk_desc" then some .risk_desc
  else none

/-- Recover the filter sets from a serialized parameter list. -/
def decodeFilters (ps : List (String × String)) : FundFilters :=
  ⟨valuesOf "amc" ps, valuesOf "category" ps, valuesOf "risk" ps, valuesOf "fee_band" ps⟩

/-! ## The catalog hook (`frontend/components/FundCatalog/useFundCatalog.ts`)

The hook is modelled as a state machine.  Requests are the argument
tuples the hook passes to `fetchFunds`. -/

/-- One `fetchFunds` call as issued by the hook:
`fetchFunds(cursor, 25, q, filters, sort)`. -/
structure FundsRequest where
  cursor : Option String
  limit : Nat
  q : String
  filters : FundFilters
  sort : SortOption
deriving DecidableEq

/-- A constraint set: search term, filters and sort key. -/
structure QueryConstraints where
  q : String
  filters : FundFilters
  sort : SortOption
deriving DecidableEq

/-- Which of the two fetching callbacks issued the in-flight request. -/
inductive ReqKind where
  | initial
  | more
deriving DecidableEq

/-- An in-flight `fetchFunds` call: who issued it and with what
arguments. -/
structure Pending where
  kind : ReqKind
  req : FundsRequest
deriving DecidableEq

/-- The state held by `useFundCatalog`: the `useState` cells, the
`useRef` cells (`seenIds`, `isLoadingRef`, `hasLoadedFundsRef`), plus
bookkeeping for the one request that can be in flight.

`mintedUnder` is ghost instrumentation only: it records the constraint
set of the request whose response produced the current `nextCursor`.
No transition reads it to decide anything else. -/
structure Catalog where
  funds : List FundSummary
  state : CatalogState
  nextCursor : Option String
  asOfDate : String
  error : Option String
  searchQuery : String
  filters : FundFilters
  sort : SortOption
  seenIds : List String
  isLoading : Bool
  hasLoadedFunds : Bool
  pending : Option Pending
  mintedUnder : Option QueryConstraints
deriving DecidableEq

/-- The duplicate filter both callbacks run over a page
(`response.items.filter(...)` with the mutable `seenIds` set): returns
the kept items and the grown seen set. -/
def filterUnique : List FundSummary → List String → List FundSummary × List String
  | [], seen => ([], seen)
  | f :: rest, seen =>
    if f.fund_id ∈ seen then filterUnique rest seen
    else
      let p := filterUnique rest (f.fund_id :: seen)
      (f :: p.1, p.2)

/-- The synchronous part of `loadInitial(q, currentFilters, currentSort,
isInitialLoad)` up to the `await`: bail out if a load is in flight, else
mark loading, maybe show the initial spinner, clear the error and the
seen set, and issue a cursorless page-1 request.  Emitted requests are
paired with the ghost `mintedUnder` at emission time. -/
def startInitial (s : Catalog) (q : String) (fl : FundFilters) (so : SortOption)
    (isInitialLoad : Bool) : Catalog × List (FundsRequest × Option QueryConstraints) :=
  if s.isLoading then (s, [])
  else
    let shouldShowLoading := isInitialLoad || !s.hasLoadedFunds
    let req : FundsRequest := ⟨none, 25, q, fl, so⟩
    ({ s with
        isLoading := true
        state := if shouldShowLoading then CatalogState.loading_initial else s.state
        error := none
        seenIds := []
        pending := some ⟨ReqKind.initial, req⟩ },
      [(req, s.mintedUnder)])

/-- The synchronous part of `loadMore` up to the `await`: bail out if
loading or the stored cursor is falsy, else mark loading and issue a
continuation request built from the current state. -/
def startMore (s : Catalog) : Catalog × List (FundsRequest × Option QueryConstraints) :=
  if s.isLoading || !truthy s.nextCursor then (s, [])
  else
    let req : FundsRequest := ⟨s.nextCursor, 25, s.searchQuery, s.filters, s.sort⟩
    ({ s with
        isLoading := true
        state := CatalogState.loading_more
        error := none
        pending := some ⟨ReqKind.more, req⟩ },
      [(req, s.mintedUnder)])

/-- The continuation of `loadInitial` once `fetchFunds` settles: on
success replace the fund list by the deduplicated page, store the new
cursor and freshness date, and pick `idle` / `loaded` /
`end_of_results`; on failure record the message and `error_initial`.
Either way the loading flag drops (the `finally` block). -/
def finishInitial (s : Catalog) (req : FundsRequest)
    (out : Except String FundListResponse) : Catalog :=
  match out with
  | .ok resp =>
    let p := filterUnique resp.items s.seenIds
    { s with
        funds := p.1
        seenIds := p.2
        nextCursor := resp.next_cursor
        asOfDate := resp.as_of_date
        hasLoadedFunds := true
        state :=
          if p.1 = [] then CatalogState.idle
          else if truthy resp.next_cursor then CatalogState.loaded
          else CatalogState.end_of_results
        isLoading := false
        pending := none
        mintedUnder := some ⟨req.q, req.filters, req.sort⟩ }
  | .error msg =>
    { s with
        error := some msg
        state := CatalogState.error_initial
        isLoading := false
        pending := none }

/-- The continuation of `loadMore` once `fetchFunds` settles: on success
append the deduplicated page and store the new cursor; on failure record
the message and `error_load_more`, touching nothing else. -/
def finishMore (s : Catalog) (req : FundsRequest)
    (out : Except String FundListResponse) : Catalog :=
  match out with
  | .ok resp =>
    let p := filterUnique resp.items s.seenIds
    { s with
        funds := s.funds ++ p.1
        seenIds := p.2
        nextCursor := resp.next_cursor
        state :=
          if truthy resp.next_cursor then CatalogState.loaded
          else CatalogState.end_of_results
        isLoading := false
        pending := none
        mintedUnder := some ⟨req.q, req.filters, req.sort⟩ }
  | .error msg =>
    { s with
        error := some msg
        state := CatalogState.error_load_more
        isLoading := false
        pending := none }

/-- `toggleFilter(type, value)` from the hook. -/
def toggleFilter (f : FundFilters) (d : FilterDim) (v : String) : FundFilters :=
  let current := f.get d
  let next := if v ∈ current then current.filter (fun x => x ≠ v) else current ++ [v]
  f.set d next

/-- `removeFilter(type, value)` from the hook. -/
def removeFilter (f : FundFilters) (d : FilterDim) (v : String) : FundFilters :=
  f.set d ((f.get d).filter (fun x => x ≠ v))

/-- The externally triggerable events of the hook.  Constraint-setting
actions are fused with the `useEffect` on `[searchQuery, filters, sort]`
that follows them: the setter runs, then the effect calls `loadInitial`
with the new current values.  `mount` is the effect's first run.
`response` delivers the settlement of the in-flight `fetchFunds`
promise. -/
inductive Ev where
  | mount
  | updateSearch (q : String)
  | clearSearch
  | toggleF (d : FilterDim) (v : String)
  | clearFiltersEv
  | removeF (d : FilterDim) (v : String)
  | updateSortEv (so : SortOption)
  | clickLoadMore
  | reload
  | response (out : Except String FundListResponse)

/-- One step of the hook.  Returns the new state and the `fetchFunds`
requests issued during the step (each paired with the ghost
`mintedUnder` at emission time). -/
def stepC (s : Catalog) : Ev → Catalog × List (FundsRequest × Option QueryConstraints)
  | .mount => startInitial s s.searchQuery s.filters s.sort true
  | .updateSearch q =>
    let s' := { s with searchQuery := q }
    startInitial s' q s'.filters s'.sort false
  | .clearSearch =>
    let s' := { s with searchQuery := "" }
    startInitial s' "" s'.filters s'.sort false
  | .toggleF d v =>
    let s' := { s with filters := toggleFilter s.filters d v }
    startInitial s' s'.searchQuery s'.filters s'.sort false
  | .clearFiltersEv =>
    let s' := { s with filters := emptyFilters }
    startInitial s' s'.searchQuery s'.filters s'.sort false
  | .removeF d v =>
    let s' := { s with filters := removeFilter s.filters d v }
    startInitial s' s'.searchQuery s'.filters s'.sort false
  | .updateSortEv so =>
    let s' := { s with sort := so }
    startInitial s' s'.searchQuery s'.filters so false
  | .clickLoadMore => startMore s
  | .reload => startInitial s s.searchQuery s.filters s.sort false
  | .response out =>
    match s.pending with
    | none => (s, [])
    | some p =>
      match p.kind with
      | .initial => (finishInitial s p.req out, [])
      | .more => (finishMore s p.req out, [])

/-- Run a list of events, accumulating all issued requests. -/
def runC (s : Catalog) : List Ev → Catalog × List (FundsRequest × Option QueryConstraints)
  | [] => (s, [])
  | e :: rest =>
    let p := stepC s e
    let r := runC p.1 rest
    (r.1, p.2 ++ r.2)

/-- The hook's initial state (the `useState` initializers). -/
def catalogInit : Catalog :=
  { funds := []
    state := .idle
    nextCursor := none
    asOfDate := ""
    error := none
    searchQuery := ""
    filters := emptyFilters
    sort := .name_asc
    seenIds := []
    isLoading := false
    hasLoadedFunds := false
    pending := none
    mintedUnder := none }

/-! ## De-duplication lemmas -/

theorem filterUnique_seen_subset (items : List FundSummary) (seen : List String) :
    ∀ x ∈ seen, x ∈ (filterUnique items seen).2 := by
  induction items generalizing seen with
  | nil => intro x hx; simpa [filterUnique] using hx
  | cons f rest ih =>
    intro x hx
    by_cases h : f.fund_id ∈ seen
    · simpa [filterUnique, h] using ih seen x hx
    · simpa [filterUnique, h] using ih (f.fund_id :: seen) x (List.mem_cons_of_mem _ hx)

theorem filterUnique_kept_not_seen (items : List FundSummary) (seen : List String) :
    ∀ f ∈ (filterUnique items seen).1, f.fund_id ∉ seen := by
  induction items generalizing seen with
  | nil => intro f hf; simp [filterUnique] at hf
  | cons g rest ih =>
    intro f hf
    by_cases h : g.fund_id ∈ seen
    · exact ih seen f (by simpa [filterUnique, h] using hf)
    · rw [show filterUnique (g :: rest) seen
          = (g :: (filterUnique rest (g.fund_id :: seen)).1,
             (filterUnique rest (g.fund_id :: seen)).2) by simp [filterUnique, h]] at hf
      rcases List.mem_cons.mp hf with rfl | hf'
      · exact h
      · intro hx
        exact ih (g.fund_id :: seen) f hf' (List.mem_cons_of_mem _ hx)

theorem filterUnique_kept_mem_seen (items : List FundSummary) (seen : List String) :
    ∀ f ∈ (filterUnique items seen).1, f.fund_id ∈ (filterUnique items seen).2 := by
  induction items generalizing seen with
  | nil => intro f hf; simp [filterUnique] at hf
  | cons g rest ih =>
    intro f hf
    by_cases h : g.fund_id ∈ seen
    · simp only [filterUnique, if_pos h] at hf ⊢
      exact ih seen f hf
    · simp only [filterUnique, if_neg h] at hf ⊢
      rcases List.mem_cons.mp hf with rfl | hf'
      · exact filterUnique_seen_subset rest (f.fund_id :: seen) _ (List.mem_cons_self _ _)
      · exact ih (g.fund_id :: seen) f hf'

theorem filterUnique_nodup (items : List FundSummary) (seen : List String) :
    ((filterUnique items seen).1.map (fun f => f.fund_id)).Nodup := by
  induction items generalizing seen with
  | nil => simp [filterUnique]
  | cons g rest ih =>
    by_cases h : g.fund_id ∈ seen
    · simpa [filterUnique, h] using ih seen
    · simp only [filterUnique, if_neg h, List.map_cons, List.nodup_cons]
      refine ⟨?_, ih (g.fund_id :: seen)⟩
      intro hmem
      rcases List.mem_map.mp hmem with ⟨f, hf, hid⟩
      exact filterUnique_kept_not_seen rest (g.fund_id :: seen) f hf
        (hid ▸ List.mem_cons_self _ _)

/-! ## C1: a catalog session never accumulates duplicate fund ids -/

/-- One `loadMore` call followed by the settlement of its fetch. -/
def loadMoreRound (s : Catalog) (out : Except String FundListResponse) : Catalog :=
  (stepC (stepC s Ev.clickLoadMore).1 (Ev.response out)).1

/-- A pagination session: the mount-time initial load settles with
`r0`, then any number of `loadMore` calls settle with `outs`, each
outcome arbitrary (overlapping pages, failures). -/
def sessionRun (r0 : Except String FundListResponse)
    (outs : List (Except String FundListResponse)) : Catalog :=
  outs.foldl loadMoreRound (stepC (stepC catalogInit Ev.mount).1 (Ev.response r0)).1

/-- Invariant carried through a session. -/
def SessionInv (s : Catalog) : Prop :=
  (s.funds.map (fun f => f.fund_id)).Nodup ∧
    (∀ f ∈ s.funds, f.fund_id ∈ s.seenIds) ∧
    s.pending = none ∧ s.isLoading = false

theorem sessionInv_init (r0 : Except String FundListResponse) :
    SessionInv (stepC (stepC catalogInit Ev.mount).1 (Ev.response r0)).1 := by
  cases r0 with
  | ok resp =>
    refine ⟨?_, ?_, ?_, ?_⟩
    · simpa [stepC, startInitial, catalogInit, finishInitial]
        using filterUnique_nodup resp.items []
    · simpa [stepC, startInitial, catalogInit, finishInitial]
        using filterUnique_kept_mem_seen resp.items []
    · simp [stepC, startInitial, catalogInit, finishInitial]
    · simp [stepC, startInitial, catalogInit, finishInitial]
  | error msg =>
    refine ⟨?_, ?_, ?_, ?_⟩ <;>
      simp [stepC, startInitial, catalogInit, finishInitial]

theorem sessionInv_round (s : Catalog) (out : Except String FundListResponse)
    (h : SessionInv s) : SessionInv (loadMoreRound s out) := by
  obtain ⟨hn, hm, hp, hl⟩ := h
  by_cases hc : truthy s.nextCursor
  · have hstep : startMore s
        = ({ s with
              isLoading := true
              state := CatalogState.loading_more
              error := none
              pending := some ⟨ReqKind.more, ⟨s.nextCursor, 25, s.searchQuery, s.filters, s.sort⟩⟩ },
            [(⟨s.nextCursor, 25, s.searchQuery, s.filters, s.sort⟩, s.mintedUnder)]) := by
      simp [startMore, hl, hc]
    cases out with
    | ok resp =>
      refine ⟨?_, ?_, ?_, ?_⟩ <;>
        simp only [loadMoreRound, stepC, hstep, finishMore]
      · rw [List.map_append, List.nodup_append]
        refine ⟨hn, filterUnique_nodup _ _, ?_⟩
        intro a ha hb
        rcases List.mem_map.mp ha with ⟨f, hf, rfl⟩
        rcases List.mem_map.mp hb with ⟨g, hg, hgf⟩
        exact filterUnique_kept_not_seen _ _ g hg (hgf ▸ hm f hf)
      · intro f hf
        rcases List.mem_append.mp hf with hf' | hf'
        · exact filterUnique_seen_subset _ _ _ (hm f hf')
        · exact filterUnique_kept_mem_seen _ _ f hf'
    | error msg =>
      exact ⟨by simpa [loadMoreRound, stepC, hstep, finishMore] using hn,
        by simpa [loadMoreRound, stepC, hstep, finishMore] using hm,
        by simp [loadMoreRound, stepC, hstep, finishMore],
        by simp [loadMoreRound, stepC, hstep, finishMore]⟩
  · have hstep : startMore s = (s, []) := by
      simp [startMore, hl, hc]
    have : loadMoreRound s out = s := by
      simp [loadMoreRound, stepC, hstep, hp]
    rw [this]
    exact ⟨hn, hm, hp, hl⟩

/-- **C1.** For a fixed constraint set, the accumulated funds list of
`useFundCatalog` — after the initial load settles and any number of
`loadMore` calls each settle, with arbitrary (even overlapping or
failing) pages — never contains two entries with the same `fund_id`. -/
theorem catalog_session_no_duplicate_ids (r0 : Except String FundListResponse)
    (outs : List (Except String FundListResponse)) :
    ((sessionRun r0 outs).funds.map (fun f => f.fund_id)).Nodup := by
  have main : ∀ (l : List (Except String FundListResponse)) (s : Catalog),
      SessionInv s → SessionInv (l.foldl loadMoreRound s) := by
    intro l
    induction l with
    | nil => intro s hs; exact hs
    | cons o rest ih =>
      intro s hs
      exact ih _ (sessionInv_round s o hs)
  exact (main outs _ (sessionInv_init r0)).1

/-! ## Parameter-serialization lemmas -/

theorem valuesOf_append (k : String) (ps qs : List (String × String)) :
    valuesOf k (ps ++ qs) = valuesOf k ps ++ valuesOf k qs :=
  List.filterMap_append ps qs _

theorem valuesOf_map_const_same (k : String) (l : List String) :
    valuesOf k (l.map fun v => (k, v)) = l := by
  induction l with
  | nil => simp [valuesOf]
  | cons v rest ih => simpa [valuesOf, List.filterMap_cons] using ih

theorem valuesOf_map_const_other {k k' : String} (h : ¬ k' = k) (l : List String) :
    valuesOf k (l.map fun v => (k', v)) = [] := by
  induction l with
  | nil => simp [valuesOf]
  | cons v rest ih => simpa [valuesOf, List.filterMap_cons, h] using ih

theorem find?_map_const_other {k k' : String} (h : ¬ k' = k) (l : List String) :
    (l.map fun v => (k', v)).find? (fun p => p.1 = k) = none := by
  rw [List.find?_eq_none]
  intro x hx
  rcases List.mem_map.mp hx with ⟨v, _, rfl⟩
  simp [h]

theorem hasKey_iff_valuesOf (k : String) (ps : List (String × String)) :
    hasKey k ps = true ↔ valuesOf k ps ≠ [] := by
  induction ps with
  | nil => simp [hasKey, valuesOf]
  | cons p rest ih =>
    by_cases h : p.1 = k <;> simp [hasKey, valuesOf, List.filterMap_cons, h, ih]

/-- The cursor fragment of `buildParams`. -/
def cursorPart (cursor : Option String) : List (String × String) :=
  match cursor with
  | some c => if c ≠ "" then [("cursor", c)] else []
  | none => []

/-- The search-term fragment of `buildParams`. -/
def qPart (q : Option String) : List (String × String) :=
  match q with
  | some t => if t ≠ "" then [("q", t)] else []
  | none => []

/-- The filter fragment of `buildParams`. -/
def filtersPart (filters : Option FundFilters) : List (String × String) :=
  match filters with
  | some f =>
    (f.amc.map (fun v => ("amc", v)))
      ++ (f.category.map (fun v => ("category", v)))
      ++ (f.risk.map (fun v => ("risk", v)))
      ++ (f.fee_band.map (fun v => ("fee_band", v)))
  | none => []

theorem buildParams_decompose (cursor : Option String) (limit : Nat) (q : Option String)
    (filters : Option FundFilters) (sort : SortOption) :
    buildParams cursor limit q filters sort
      = [("limit", toString limit), ("sort", sortWire sort)]
          ++ cursorPart cursor ++ qPart q ++ filtersPart filters := by
  simp [buildParams, cursorPart, qPart, filtersPart, List.append_assoc]

theorem valuesOf_cursorPart {k : String} (h : ¬ ("cursor" : String) = k)
    (cursor : Option String) : valuesOf k (cursorPart cursor) = [] := by
  rcases cursor with _ | c
  · simp [cursorPart, valuesOf]
  · by_cases hc : c = "" <;> simp [cursorPart, valuesOf, hc, h]

theorem valuesOf_qPart {k : String} (h : ¬ ("q" : String) = k) (q : Option String) :
    valuesOf k (qPart q) = [] := by
  rcases q with _ | t
  · simp [qPart, valuesOf]
  · by_cases ht : t = "" <;> simp [qPart, valuesOf, ht, h]

theorem valuesOf_nil (k : String) : valuesOf k [] = [] := rfl

theorem valuesOf_single_same (k v : String) : valuesOf k [(k, v)] = [v] := by
  simp [valuesOf, List.filterMap_cons]

theorem valuesOf_limit_sort {k : String} (h1 : ¬ ("limit" : String) = k)
    (h2 : ¬ ("sort" : String) = k) (a b : String) :
    valuesOf k [("limit", a), ("sort", b)] = [] := by
  simp [valuesOf, List.filterMap_cons, h1, h2]

theorem valuesOf_buildParams_dim (cursor : Option String) (limit : Nat) (q : Option String)
    (filters : Option FundFilters) (sort : SortOption) (d : FilterDim) :
    valuesOf (dimKey d) (buildParams cursor limit q filters sort)
      = (match filters with | some f => f.get d | none => []) := by
  rw [buildParams_decompose, valuesOf_append, valuesOf_append, valuesOf_append]
  rcases filters with _ | f <;> cases d <;>
    simp [filtersPart, dimKey, valuesOf_append, valuesOf_cursorPart, valuesOf_nil,
      valuesOf_qPart, valuesOf_limit_sort, valuesOf_map_const_same,
      valuesOf_map_const_other, FundFilters.get]

theorem valuesOf_buildParams_q (cursor : Option String) (limit : Nat) (q : Option String)
    (filters : Option FundFilters) (sort : SortOption) :
    valuesOf "q" (buildParams cursor limit q filters sort)
      = (match q with | some t => if t = "" then [] else [t] | none => []) := by
  rw [buildParams_decompose, valuesOf_append, valuesOf_append, valuesOf_append]
  have hf : valuesOf "q" (filtersPart filters) = [] := by
    rcases filters with _ | f
    · simp [filtersPart, valuesOf]
    · simp [filtersPart, valuesOf_append, valuesOf_map_const_other (by decide : ¬ ("amc" : String) = "q"),
        valuesOf_map_const_other (by decide : ¬ ("category" : String) = "q"),
        valuesOf_map_const_other (by decide : ¬ ("risk" : String) = "q"),
        valuesOf_map_const_other (by decide : ¬ ("fee_band" : String) = "q")]
  rcases q with _ | t
  · simp [qPart, valuesOf_nil, hf, valuesOf_cursorPart, valuesOf_limit_sort,
      valuesOf_single_same]
  · by_cases ht : t = "" <;>
      simp [qPart, ht, hf, valuesOf_nil, valuesOf_cursorPart, valuesOf_limit_sort,
        valuesOf_single_same]

theorem mem_cursorPart {x : String × String} {cursor : Option String}
    (h : x ∈ cursorPart cursor) : x.1 = "cursor" := by
  rcases cursor with _ | c
  · simp [cursorPart] at h
  · by_cases hc : c = "" <;> simp [cursorPart, hc] at h
    rw [h]

theorem mem_qPart {x : String × String} {q : Option String}
    (h : x ∈ qPart q) : x.1 = "q" := by
  rcases q with _ | t
  · simp [qPart] at h
  · by_cases ht : t = "" <;> simp [qPart, ht] at h
    rw [h]

theorem mem_filtersPart {x : String × String} {filters : Option FundFilters}
    (h : x ∈ filtersPart filters) :
    x.1 = "amc" ∨ x.1 = "category" ∨ x.1 = "risk" ∨ x.1 = "fee_band" := by
  rcases filters with _ | f
  · simp [filtersPart] at h
  · simp only [filtersPart, List.mem_append] at h
    rcases h with ((h | h) | h) | h <;> rcases List.mem_map.mp h with ⟨v, _, rfl⟩ <;> simp

theorem find?_cursorPart_other {k : String} (h : ¬ ("cursor" : String) = k)
    (cursor : Option String) : (cursorPart cursor).find? (fun p => p.1 = k) = none := by
  rw [List.find?_eq_none]
  intro x hx
  simp [mem_cursorPart hx, h]

theorem find?_qPart_other {k : String} (h : ¬ ("q" : String) = k)
    (q : Option String) : (qPart q).find? (fun p => p.1 = k) = none := by
  rw [List.find?_eq_none]
  intro x hx
  simp [mem_qPart hx, h]

theorem find?_filtersPart_cursor (filters : Option FundFilters) :
    (filtersPart filters).find? (fun p => p.1 = ("cursor" : String)) = none := by
  rw [List.find?_eq_none]
  intro x hx
  rcases mem_filtersPart hx with h | h | h | h <;> simp [h]

theorem find?_filtersPart_q (filters : Option FundFilters) :
    (filtersPart filters).find? (fun p => p.1 = ("q" : String)) = none := by
  rw [List.find?_eq_none]
  intro x hx
  rcases mem_filtersPart hx with h | h | h | h <;> simp [h]

theorem firstValue_buildParams_limit (cursor : Option String) (limit : Nat)
    (q : Option String) (filters : Option FundFilters) (sort : SortOption) :
    firstValue "limit" (buildParams cursor limit q filters sort) = some (toString limit) := by
  simp [firstValue, buildParams_decompose, List.find?_append]

theorem firstValue_buildParams_sort (cursor : Option String) (limit : Nat)
    (q : Option String) (filters : Option FundFilters) (sort : SortOption) :
    firstValue "sort" (buildParams cursor limit q filters sort) = some (sortWire sort) := by
  simp [firstValue, buildParams_decompose, List.find?_append]

theorem firstValue_buildParams_cursor (cursor : Option String) (limit : Nat)
    (q : Option String) (filters : Option FundFilters) (sort : SortOption) :
    firstValue "cursor" (buildParams cursor limit q filters sort)
      = (match cursor with
         | some c => if c = "" then none else some c
         | none => none) := by
  rcases cursor with _ | c
  · simp [firstValue, buildParams_decompose, List.find?_append, cursorPart,
      find?_qPart_other, find?_filtersPart_cursor]
  · by_cases hc : c = "" <;>
      simp [firstValue, buildParams_decompose, List.find?_append, cursorPart, hc,
        find?_qPart_other, find?_filtersPart_cursor]

theorem firstValue_buildParams_q (cursor : Option String) (limit : Nat)
    (q : Option String) (filters : Option FundFilters) (sort : SortOption) :
    firstValue "q" (buildParams cursor limit q filters sort)
      = (match q with
         | some t => if t = "" then none else some t
         | none => none) := by
  rcases q with _ | t
  · simp [firstValue, buildParams_decompose, List.find?_append, qPart,
      find?_cursorPart_other, find?_filtersPart_q]
  · by_cases ht : t = "" <;>
      simp [firstValue, buildParams_decompose, List.find?_append, qPart, ht,
        find?_cursorPart_other, find?_filtersPart_q]

theorem parseSort_sortWire (so : SortOption) : parseSort (sortWire so) = some so := by
  cases so <;> rfl

/-! ## C9: `loadMore` is atomic on failure -/

/-- **C9.** If the `loadMore` fetch settles with an error, the
accumulated funds, the stored cursor, the seen-id set and the constraint
state are all unchanged; only the error message and the catalog state
(set to `error_load_more`) move, and the loading flag drops so a retry
can run from the same position. -/
theorem load_more_failure_atomic (s : Catalog) (req : FundsRequest) (msg : String)
    (h : s.pending = some ⟨ReqKind.more, req⟩) :
    (stepC s (Ev.response (Except.error msg))).1.funds = s.funds ∧
    (stepC s (Ev.response (Except.error msg))).1.nextCursor = s.nextCursor ∧
    (stepC s (Ev.response (Except.error msg))).1.seenIds = s.seenIds ∧
    (stepC s (Ev.response (Except.error msg))).1.searchQuery = s.searchQuery ∧
    (stepC s (Ev.response (Except.error msg))).1.filters = s.filters ∧
    (stepC s (Ev.response (Except.error msg))).1.sort = s.sort ∧
    (stepC s (Ev.response (Except.error msg))).1.state = CatalogState.error_load_more ∧
    (stepC s (Ev.response (Except.error msg))).1.error = some msg ∧
    (stepC s (Ev.response (Except.error msg))).1.isLoading = false := by
  simp [stepC, h, finishMore]

/-- A concrete mid-pagination state with a `loadMore` request in
flight. -/
def c9State : Catalog :=
  { catalogInit with
      funds := [⟨"F1", "Fund One", "AMC A", none, none⟩]
      seenIds := ["F1"]
      nextCursor := some "c1"
      state := CatalogState.loading_more
      isLoading := true
      hasLoadedFunds := true
      pending := some ⟨ReqKind.more, ⟨some "c1", 25, "", emptyFilters, SortOption.name_asc⟩⟩ }

theorem load_more_failure_atomic_witness :
    (stepC c9State (Ev.response (Except.error "boom"))).1.funds = c9State.funds ∧
    (stepC c9State (Ev.response (Except.error "boom"))).1.nextCursor = c9State.nextCursor ∧
    (stepC c9State (Ev.response (Except.error "boom"))).1.seenIds = c9State.seenIds ∧
    (stepC c9State (Ev.response (Except.error "boom"))).1.searchQuery = c9State.searchQuery ∧
    (stepC c9State (Ev.response (Except.error "boom"))).1.filters = c9State.filters ∧
    (stepC c9State (Ev.response (Except.error "boom"))).1.sort = c9State.sort ∧
    (stepC c9State (Ev.response (Except.error "boom"))).1.state = CatalogState.error_load_more ∧
    (stepC c9State (Ev.response (Except.error "boom"))).1.error = some "boom" ∧
    (stepC c9State (Ev.response (Except.error "boom"))).1.isLoading = false :=
  load_more_failure_atomic c9State ⟨some "c1", 25, "", emptyFilters, SortOption.name_asc⟩
    "boom" rfl

/-! ## C6: the terminal sentinel -/

/-- The empty first page with the terminal sentinel. -/
def c6InitResp : FundListResponse := ⟨[], none, "2024-01-01", "snap1"⟩

/-- The hook state after the mount-time initial load settles with the
empty sentinel page. -/
def c6AfterEmptyInitial : Catalog :=
  (stepC (stepC catalogInit Ev.mount).1 (Ev.response (Except.ok c6InitResp))).1

/-- **C6, counterexample.** A successful initial response whose
`next_cursor` is the terminal sentinel but whose item list is empty
leaves the catalog in `idle`, not `end_of_results` — so the state does
not become `end_of_results` "exactly when a response's `next_cursor` is
null". -/
theorem end_of_results_initial_empty_cex :
    c6InitResp.next_cursor = none ∧
    c6AfterEmptyInitial.state = CatalogState.idle ∧
    ¬ c6AfterEmptyInitial.state = CatalogState.end_of_results := by
  refine ⟨rfl, ?_, ?_⟩ <;> decide

/-- **C6, amended.** Whenever the stored cursor is `null`, `loadMore`
returns without issuing any fetch and changes nothing.  A `loadMore`
response drives the state to `end_of_results` exactly when its
`next_cursor` is falsy; an initial-load response does so exactly when
its `next_cursor` is falsy *and* the deduplicated page is non-empty (an
empty initial page yields `idle` instead). -/
theorem end_of_results_iff_null_cursor_amended :
    (∀ s : Catalog, s.nextCursor = none → stepC s Ev.clickLoadMore = (s, [])) ∧
    (∀ (s : Catalog) (req : FundsRequest) (resp : FundListResponse),
      s.pending = some ⟨ReqKind.more, req⟩ →
      ((stepC s (Ev.response (Except.ok resp))).1.state = CatalogState.end_of_results
        ↔ truthy resp.next_cursor = false)) ∧
    (∀ (s : Catalog) (req : FundsRequest) (resp : FundListResponse),
      s.pending = some ⟨ReqKind.initial, req⟩ →
      ((stepC s (Ev.response (Except.ok resp))).1.state = CatalogState.end_of_results
        ↔ (truthy resp.next_cursor = false ∧
            ¬ (filterUnique resp.items s.seenIds).1 = []))) := by
  refine ⟨?_, ?_, ?_⟩
  · intro s h
    simp [stepC, startMore, h, truthy]
  · intro s req resp h
    by_cases ht : truthy resp.next_cursor <;> simp [stepC, h, finishMore, ht]
  · intro s req resp h
    by_cases he : (filterUnique resp.items s.seenIds).1 = [] <;>
      by_cases ht : truthy resp.next_cursor <;>
        simp [stepC, h, finishInitial, he, ht]

/-- A state holding the terminal sentinel. -/
def c6EndState : Catalog :=
  { catalogInit with
      funds := [⟨"F1", "Fund One", "AMC A", none, none⟩]
      seenIds := ["F1"]
      nextCursor := none
      state := CatalogState.end_of_results
      hasLoadedFunds := true }

/-- A state with a `loadMore` request in flight, about to receive the
sentinel. -/
def c6MoreState : Catalog :=
  { c9State with nextCursor := some "c2", pending := some ⟨ReqKind.more, c6MoreReq⟩ }
where
  c6MoreReq : FundsRequest := ⟨some "c2", 25, "", emptyFilters, SortOption.name_asc⟩

/-- The sentinel page closing the pagination. -/
def c6MoreResp : FundListResponse :=
  ⟨[⟨"F2", "Fund Two", "AMC A", none, none⟩], none, "2024-01-01", "snap1"⟩

theorem end_of_results_iff_null_cursor_amended_witness :
    stepC c6EndState Ev.clickLoadMore = (c6EndState, []) ∧
    ((stepC c6MoreState (Ev.response (Except.ok c6MoreResp))).1.state
        = CatalogState.end_of_results
      ↔ truthy c6MoreResp.next_cursor = false) :=
  ⟨end_of_results_iff_null_cursor_amended.1 c6EndState rfl,
    end_of_results_iff_null_cursor_amended.2.1 c6MoreState c6MoreState.c6MoreReq
      c6MoreResp rfl⟩

/-! ## C5: every page request carries the full constraint set -/

/-- The events whose step can trigger a page-1 `loadInitial` fetch. -/
def isStartEv : Ev → Bool
  | .mount => true
  | .updateSearch _ => true
  | .clearSearch => true
  | .toggleF _ _ => true
  | .clearFiltersEv => true
  | .removeF _ _ => true
  | .updateSortEv _ => true
  | .reload => true
  | .clickLoadMore => false
  | .response _ => false

/-- The serialized URL parameter list of a hook request, as `fetchFunds`
builds it. -/
def requestParams (r : FundsRequest) : List (String × String) :=
  buildParams r.cursor r.limit (some r.q) (some r.filters) r.sort

/-- **C5.** Every page request carries the full current constraint set.
(1) A `loadMore` continuation request consists of the stored cursor
together with the current search term, all four filter dimensions and
the sort key.  (2) Every request issued by an initial-load event carries
the post-event constraint set and no cursor.  (3) The serialized request
is self-contained: sort, search term, every filter dimension and the
cursor are all recoverable from the parameter list alone (with emptiness
encoded by omission), so no request relies on server-side session
state. -/
theorem requests_carry_full_constraints :
    (∀ s : Catalog, s.isLoading = false → truthy s.nextCursor = true →
      (stepC s Ev.clickLoadMore).2
        = [(⟨s.nextCursor, 25, s.searchQuery, s.filters, s.sort⟩, s.mintedUnder)]) ∧
    (∀ (s : Catalog) (e : Ev) (pr : FundsRequest × Option QueryConstraints),
      isStartEv e = true → pr ∈ (stepC s e).2 →
      pr.1.cursor = none ∧ pr.1.limit = 25 ∧ pr.1.q = (stepC s e).1.searchQuery ∧
      pr.1.filters = (stepC s e).1.filters ∧ pr.1.sort = (stepC s e).1.sort) ∧
    (∀ r : FundsRequest,
      firstValue "sort" (requestParams r) = some (sortWire r.sort) ∧
      parseSort (sortWire r.sort) = some r.sort ∧
      decodeFilters (requestParams r) = r.filters ∧
      firstValue "q" (requestParams r) = (if r.q = "" then none else some r.q) ∧
      firstValue "cursor" (requestParams r)
        = (match r.cursor with
           | some c => if c = "" then none else some c
           | none => none) ∧
      firstValue "limit" (requestParams r) = some (toString r.limit)) := by
  refine ⟨?_, ?_, ?_⟩
  · intro s h1 h2
    simp [stepC, startMore, h1, h2]
  · intro s e pr he hpr
    by_cases hl : s.isLoading <;>
      cases e <;> simp_all [stepC, startInitial, isStartEv]
  · intro r
    refine ⟨firstValue_buildParams_sort _ _ _ _ _, parseSort_sortWire _, ?_, ?_, ?_,
      firstValue_buildParams_limit _ _ _ _ _⟩
    · have ha := valuesOf_buildParams_dim r.cursor r.limit (some r.q) (some r.filters)
        r.sort FilterDim.amc
      have hc := valuesOf_buildParams_dim r.cursor r.limit (some r.q) (some r.filters)
        r.sort FilterDim.category
      have hr := valuesOf_buildParams_dim r.cursor r.limit (some r.q) (some r.filters)
        r.sort FilterDim.risk
      have hb := valuesOf_buildParams_dim r.cursor r.limit (some r.q) (some r.filters)
        r.sort FilterDim.fee_band
      simp only [dimKey] at ha hc hr hb
      simp only [decodeFilters, requestParams]
      rw [ha, hc, hr, hb]
      rfl
    · simpa [requestParams] using
        firstValue_buildParams_q r.cursor r.limit (some r.q) (some r.filters) r.sort
    · simpa [requestParams] using
        firstValue_buildParams_cursor r.cursor r.limit (some r.q) (some r.filters) r.sort

/-- A loaded state mid-pagination with one active filter. -/
def c5State : Catalog :=
  { catalogInit with
      nextCursor := some "c7"
      hasLoadedFunds := true
      state := CatalogState.loaded
      searchQuery := "gold"
      filters := { emptyFilters with amc := ["A1"] } }

/-- The request the updateSearch event on the fresh hook emits. -/
def c5Pr : FundsRequest × Option QueryConstraints :=
  (⟨none, 25, "gold", emptyFilters, SortOption.name_asc⟩, none)

/-- A fully populated continuation request. -/
def c5Req : FundsRequest :=
  ⟨some "c9", 25, "gold", ⟨["A1", "A2"], ["Equity"], [], ["low"]⟩, SortOption.fee_desc⟩

theorem requests_carry_full_constraints_witness :
    ((stepC c5State Ev.clickLoadMore).2
      = [(⟨c5State.nextCursor, 25, c5State.searchQuery, c5State.filters, c5State.sort⟩,
          c5State.mintedUnder)]) ∧
    (c5Pr.1.cursor = none ∧ c5Pr.1.limit = 25 ∧
      c5Pr.1.q = (stepC catalogInit (Ev.updateSearch "gold")).1.searchQuery ∧
      c5Pr.1.filters = (stepC catalogInit (Ev.updateSearch "gold")).1.filters ∧
      c5Pr.1.sort = (stepC catalogInit (Ev.updateSearch "gold")).1.sort) ∧
    (firstValue "sort" (requestParams c5Req) = some (sortWire c5Req.sort) ∧
      parseSort (sortWire c5Req.sort) = some c5Req.sort ∧
      decodeFilters (requestParams c5Req) = c5Req.filters ∧
      firstValue "q" (requestParams c5Req) = (if c5Req.q = "" then none else some c5Req.q) ∧
      firstValue "cursor" (requestParams c5Req)
        = (match c5Req.cursor with
           | some c => if c = "" then none else some c
           | none => none) ∧
      firstValue "limit" (requestParams c5Req) = some (toString c5Req.limit)) :=
  ⟨requests_carry_full_constraints.1 c5State rfl (by decide),
    requests_carry_full_constraints.2.1 catalogInit (Ev.updateSearch "gold") c5Pr rfl
      (by decide),
    requests_carry_full_constraints.2.2 c5Req⟩

/-! ## C7: empty constraint components are omitted from the request -/

/-- **C7.** In `fetchFunds`'s serialized request: the `q` parameter is
present exactly when a non-empty search term was supplied (an empty or
absent term sends no `q`, meaning "no search"); for each filter
dimension, the repeated parameter list carries exactly the dimension's
accepted values in order, so an empty (or absent) dimension contributes
no parameter at all, and a key for the dimension appears exactly when
its value set is non-empty. -/
theorem empty_constraints_omitted_params (cursor : Option String) (limit : Nat)
    (q : Option String) (filters : Option FundFilters) (sort : SortOption) :
    (hasKey "q" (buildParams cursor limit q filters sort) = true
      ↔ ∃ t, q = some t ∧ ¬ t = "") ∧
    (∀ d : FilterDim,
      valuesOf (dimKey d) (buildParams cursor limit q filters sort)
        = (match filters with | some f => f.get d | none => [])) ∧
    (∀ d : FilterDim,
      hasKey (dimKey d) (buildParams cursor limit q filters sort) = true
        ↔ ¬ (match filters with | some f => f.get d | none => []) = []) := by
  refine ⟨?_, valuesOf_buildParams_dim cursor limit q filters sort, ?_⟩
  · rw [hasKey_iff_valuesOf, valuesOf_buildParams_q]
    rcases q with _ | t
    · simp
    · by_cases ht : t = "" <;> simp [ht]
  · intro d
    rw [hasKey_iff_valuesOf, valuesOf_buildParams_dim]

/-! ## C2: a stale cursor crosses a constraint change -/

/-- Page 1 for the empty search, minting cursor `c1`. -/
def c2Resp1 : FundListResponse :=
  ⟨[⟨"F1", "Fund One", "AMC A", none, none⟩], some "c1", "2024-01-01", "snap1"⟩

/-- Mount; page 1 settles under the empty query, minting `c1`; the user
searches `gold`, which starts a fresh page-1 reload; that reload fails;
the user clicks Load More. -/
def c2Trace : List Ev :=
  [Ev.mount,
   Ev.response (Except.ok c2Resp1),
   Ev.updateSearch "gold",
   Ev.response (Except.error "backend down"),
   Ev.clickLoadMore]

/-- **C2.** Running the hook on `c2Trace` issues a continuation request
that pairs cursor `c1` with the search term `gold`, although `c1` was
minted under the empty search term (the ghost `mintedUnder` recorded at
emission): the failed reload left the stale cursor in place, so a cursor
minted under one constraint set is sent with a different one. -/
theorem stale_cursor_mixed_constraints_run :
    ∃ pr ∈ (runC catalogInit c2Trace).2,
      pr.1.cursor = some "c1" ∧ pr.1.q = "gold" ∧
      pr.2 = some ⟨"", emptyFilters, SortOption.name_asc⟩ ∧
      ¬ pr.2 = some ⟨pr.1.q, pr.1.filters, pr.1.sort⟩ := by
  decide

/-! ## C10: `toggleFilter` is a set-level involution on its own dimension -/

/-- **C10.** Toggling the same value twice on a dimension restores that
dimension's value set (membership-wise), and a single toggle leaves
every other dimension untouched. -/
theorem toggle_filter_involution :
    (∀ (f : FundFilters) (d : FilterDim) (v x : String),
      x ∈ (toggleFilter (toggleFilter f d v) d v).get d ↔ x ∈ f.get d) ∧
    (∀ (f : FundFilters) (d d' : FilterDim) (v : String),
      ¬ d' = d → (toggleFilter f d v).get d' = f.get d') := by
  have hsame : ∀ (f : FundFilters) (d : FilterDim) (l : List String),
      (f.set d l).get d = l := by
    intro f d l
    cases d <;> rfl
  have hother : ∀ (f : FundFilters) (d d' : FilterDim) (l : List String),
      ¬ d' = d → (f.set d l).get d' = f.get d' := by
    intro f d d' l h
    cases d <;> cases d' <;> first | rfl | exact absurd rfl h
  constructor
  · intro f d v x
    simp only [toggleFilter, hsame]
    by_cases h : v ∈ f.get d
    · by_cases hx : x = v <;>
        simp [h, hx, List.mem_filter, List.mem_append]
    · by_cases hx : x = v <;>
        simp [h, hx, List.mem_filter, List.mem_append]
  · intro f d d' v h
    simp only [toggleFilter]
    exact hother _ _ _ _ h

/-- A concrete filter state for the witness. -/
def c10F : FundFilters := ⟨["A1"], ["Equity"], [], []⟩

theorem toggle_filter_involution_witness :
    (("A1" : String) ∈ (toggleFilter (toggleFilter c10F FilterDim.amc "A1")
        FilterDim.amc "A1").get FilterDim.amc ↔ ("A1" : String) ∈ c10F.get FilterDim.amc) ∧
    (toggleFilter c10F FilterDim.amc "A1").get FilterDim.category
      = c10F.get FilterDim.category :=
  ⟨toggle_filter_involution.1 c10F FilterDim.amc "A1" "A1",
    toggle_filter_involution.2 c10F FilterDim.amc FilterDim.category "A1" (by decide)⟩

/-! ## C8: the error surfaced by `fetchFunds` -/

/-- What `fetchFunds` sees of the HTTP response: the `ok` flag, the
status code and text, and (when ok) the parsed body. -/
structure HttpResponse where
  ok : Bool
  status : Nat
  statusText : String
  body : FundListResponse
deriving DecidableEq

/-- The message of the single `Error` thrown by `fetchFunds` on any
non-ok response (`funds.ts` lines 56-58). -/
def fundsErrorMessage (status : Nat) (statusText : String) : String :=
  "Failed to fetch funds: " ++ toString status ++ " " ++ statusText

/-- `fetchFunds`'s result on a settled HTTP response: the parsed body on
`ok`, otherwise the one generic error. -/
def fetchFundsResult (resp : HttpResponse) : Except String FundListResponse :=
  if resp.ok then Except.ok resp.body
  else Except.error (fundsErrorMessage resp.status resp.statusText)

/-- The three failure classes of the spec's Search operation. -/
inductive ErrClass where
  | invalidCursor
  | backendUnavailable
  | invalidConstraints
deriving DecidableEq

/-- A failed fund-list request: the failure class that actually
occurred, plus the HTTP status the backend answered with. -/
structure FailedReq where
  cls : ErrClass
  status : Nat
  statusText : String

/-- The error `fetchFunds` surfaces for a failed request: it depends
only on the HTTP status, never on the class. -/
def surfacedError (f : FailedReq) : String :=
  fundsErrorMessage f.status f.statusText

/-- The claim, as a proposition: some reading of the surfaced error
identifies which of the three classes occurred, for every failed
request. -/
def surfacedErrorIdentifiesClass : Prop :=
  ∃ classify : String → ErrClass, ∀ f : FailedReq, classify (surfacedError f) = f.cls

/-- **C8, counterexample.** An `InvalidCursor` failure and an
`InvalidConstraints` failure that both arrive as HTTP `400 Bad Request`
surface the very same error string, so no reading of the surfaced error
can identify the class: the claim is false. -/
theorem error_class_not_identified_cex :
    surfacedError ⟨ErrClass.invalidCursor, 400, "Bad Request"⟩
        = surfacedError ⟨ErrClass.invalidConstraints, 400, "Bad Request"⟩ ∧
    ¬ surfacedErrorIdentifiesClass := by
  refine ⟨rfl, ?_⟩
  rintro ⟨classify, hc⟩
  have h1 := hc ⟨ErrClass.invalidCursor, 400, "Bad Request"⟩
  have h2 := hc ⟨ErrClass.invalidConstraints, 400, "Bad Request"⟩
  simp only [surfacedError] at h1 h2
  rw [h1] at h2
  exact absurd h2 (by decide)

/-- **C8, amended.** `fetchFunds` surfaces every non-ok response as one
undifferentiated error whose message embeds only the HTTP status code
and status text; the client performs no classification into
`InvalidCursor` / `BackendUnavailable` / `InvalidConstraints`, so the
three classes are distinguishable by the caller only insofar as the
backend assigns them distinct HTTP statuses. -/
theorem fetch_funds_single_error_shape (resp : HttpResponse) (h : resp.ok = false) :
    fetchFundsResult resp
      = Except.error
          ("Failed to fetch funds: " ++ toString resp.status ++ " " ++ resp.statusText) := by
  simp [fetchFundsResult, h, fundsErrorMessage]

theorem fetch_funds_single_error_shape_witness :
    fetchFundsResult ⟨false, 503, "Service Unavailable", ⟨[], none, "", ""⟩⟩
      = Except.error
          ("Failed to fetch funds: " ++ toString (503 : Nat) ++ " " ++ "Service Unavailable") :=
  fetch_funds_single_error_shape ⟨false, 503, "Service Unavailable", ⟨[], none, "", ""⟩⟩ rfl

/-! ## C4: the normalizer (spec-modelled)

The Python sources `backend/app/utils/normalization.py` are not part of
this tree; the normalizer below is modelled from the spec. -/

/-- Whitespace for the normalizer: space, tab, newline, carriage
return. -/
def isSpaceB (c : Char) : Bool :=
  c = ' ' || c = Char.ofNat 9 || c = Char.ofNat 10 || c = Char.ofNat 13

/-- Modelled from the spec: the fixed punctuation set the normalizer
strips — hyphen, underscore, period, comma, slash, parentheses,
brackets, colon, semicolon, quote marks (single, double, backtick). -/
def punctChars : List Char :=
  ['-', '_', '.', ',', '/', '(', ')', '[', ']', ':', ';',
    Char.ofNat 39, Char.ofNat 34, Char.ofNat 96]

/-- Membership in the stripped punctuation set. -/
def isPunctB (c : Char) : Bool := punctChars.contains c

/-- The uppercase/lowercase ASCII letter pairs used by the case-fold
step. -/
def upperLower : List (Char × Char) :=
  [('A', 'a'), ('B', 'b'), ('C', 'c'), ('D', 'd'), ('E', 'e'), ('F', 'f'),
   ('G', 'g'), ('H', 'h'), ('I', 'i'), ('J', 'j'), ('K', 'k'), ('L', 'l'),
   ('M', 'm'), ('N', 'n'), ('O', 'o'), ('P', 'p'), ('Q', 'q'), ('R', 'r'),
   ('S', 's'), ('T', 't'), ('U', 'u'), ('V', 'v'), ('W', 'w'), ('X', 'x'),
   ('Y', 'y'), ('Z', 'z')]

/-- Modelled from the spec: case-fold one code point; letters fold to
lowercase, every other code point (including non-Latin scripts) passes
through unchanged. -/
def foldChar (c : Char) : Char :=
  match upperLower.find? (fun p => p.1 == c) with
  | some p => p.2
  | none => c

/-- Case-fold a character list. -/
def casefold (l : List Char) : List Char := l.map foldChar

/-- Strip the fixed punctuation set. -/
def stripPunct (l : List Char) : List Char := l.filter (fun c => !isPunctB c)

/-- Trim leading whitespace. -/
def trimL (l : List Char) : List Char := l.dropWhile isSpaceB

/-- Trim trailing whitespace. -/
def trimR (l : List Char) : List Char := (l.reverse.dropWhile isSpaceB).reverse

/-- Trim leading and trailing whitespace. -/
def trimWs (l : List Char) : List Char := trimR (trimL l)

/-- Collapse interior whitespace runs to one space (each run of
whitespace characters becomes a single `' '`). -/
def collapseWs : List Char → List Char
  | [] => []
  | [c] => [if isSpaceB c then ' ' else c]
  | c1 :: c2 :: rest =>
    if isSpaceB c1 && isSpaceB c2 then collapseWs (c2 :: rest)
    else (if isSpaceB c1 then ' ' else c1) :: collapseWs (c2 :: rest)

/-- Modelled from the spec: `normalize(text) -> key`, rules applied in
the spec's order — Unicode case-fold, trim leading/trailing whitespace,
collapse interior whitespace runs to one space, strip the fixed
punctuation set. -/
def normalizeKey (l : List Char) : List Char :=
  stripPunct (collapseWs (trimWs (casefold l)))

/-- The normalizer on strings. -/
def normalizeStr (s : String) : String := ⟨normalizeKey s.data⟩

/-- **C4, counterexample.** Under the spec's rule order (whitespace is
collapsed *before* punctuation is stripped), stripping can expose a new
whitespace run: `"a - b"` normalizes to `"a  b"` with a double space,
and a second application collapses it to `"a b"`.  So
`normalize(normalize(x)) = normalize(x)` fails. -/
theorem normalize_not_idempotent_cex :
    normalizeStr "a - b" = "a  b" ∧
    normalizeStr (normalizeStr "a - b") = "a b" ∧
    ¬ normalizeStr (normalizeStr "a - b") = normalizeStr "a - b" := by
  refine ⟨?_, ?_, ?_⟩ <;> decide

/-! ### Character-level facts -/

theorem upperLower_facts :
    ∀ p ∈ upperLower,
      isSpaceB p.1 = false ∧ isSpaceB p.2 = false ∧ isPunctB p.2 = false ∧
      upperLower.find? (fun q => q.1 == p.2) = none := by
  decide

theorem foldChar_idem (c : Char) : foldChar (foldChar c) = foldChar c := by
  unfold foldChar
  cases h : upperLower.find? (fun p => p.1 == c) with
  | none => rw [h]
  | some p =>
    have hp := List.mem_of_find?_eq_some h
    rw [(upperLower_facts p hp).2.2.2]

theorem foldChar_space (c : Char) (h : isSpaceB c = true) : foldChar c = c := by
  unfold foldChar
  cases hf : upperLower.find? (fun p => p.1 == c) with
  | none => rfl
  | some p =>
    have hp := List.mem_of_find?_eq_some hf
    have hpc : p.1 = c := by simpa using List.find?_some hf
    exact absurd (hpc ▸ h) (by simp [(upperLower_facts p hp).1])

theorem foldChar_notPunct (c : Char) (h : isPunctB c = false) :
    isPunctB (foldChar c) = false := by
  unfold foldChar
  cases hf : upperLower.find? (fun p => p.1 == c) with
  | none => exact h
  | some p => exact (upperLower_facts p (List.mem_of_find?_eq_some hf)).2.2.1

theorem space_char_facts :
    isSpaceB ' ' = true ∧ isPunctB ' ' = false ∧ foldChar ' ' = ' ' := by
  decide

/-! ### Head/tail whitespace -/

/-- Whether a list starts with a whitespace character. -/
def headIsSpace (l : List Char) : Bool :=
  match l.head? with
  | none => false
  | some c => isSpaceB c

/-- Whether a list ends with a whitespace character. -/
def tailIsSpace (l : List Char) : Bool :=
  match l.getLast? with
  | none => false
  | some c => isSpaceB c

theorem headIsSpace_reverse (l : List Char) : headIsSpace l.reverse = tailIsSpace l := by
  unfold headIsSpace tailIsSpace
  rw [List.head?_reverse]

/-! ### Collapse lemmas -/

theorem mem_collapseWs {c : Char} : ∀ {l : List Char}, c ∈ collapseWs l → c = ' ' ∨ c ∈ l
  | [], h => by simp [collapseWs] at h
  | [d], h => by
    simp only [collapseWs, List.mem_singleton] at h
    by_cases hd : isSpaceB d <;> simp [hd] at h <;> simp [h]
  | c1 :: c2 :: rest, h => by
    by_cases hb : isSpaceB c1 && isSpaceB c2
    · rw [collapseWs, if_pos hb] at h
      rcases mem_collapseWs h with h' | h'
      · exact Or.inl h'
      · exact Or.inr (List.mem_cons_of_mem _ h')
    · rw [collapseWs, if_neg hb] at h
      rcases List.mem_cons.mp h with h' | h'
      · by_cases h1 : isSpaceB c1
        · simp [h1] at h'
          exact Or.inl h'
        · simp [h1] at h'
          exact Or.inr (h' ▸ List.mem_cons_self _ _)
      · rcases mem_collapseWs h' with h'' | h''
        · exact Or.inl h''
        · exact Or.inr (List.mem_cons_of_mem _ h'')

theorem collapseWs_spaces {c : Char} :
    ∀ {l : List Char}, c ∈ collapseWs l → isSpaceB c = true → c = ' '
  | [], h, _ => by simp [collapseWs] at h
  | [d], h, hs => by
    simp only [collapseWs, List.mem_singleton] at h
    by_cases hd : isSpaceB d
    · simpa [hd] using h
    · rw [if_neg hd] at h
      exact absurd (h ▸ hs) (by simp [hd])
  | c1 :: c2 :: rest, h, hs => by
    by_cases hb : isSpaceB c1 && isSpaceB c2
    · rw [collapseWs, if_pos hb] at h
      exact collapseWs_spaces h hs
    · rw [collapseWs, if_neg hb] at h
      rcases List.mem_cons.mp h with h' | h'
      · by_cases h1 : isSpaceB c1
        · simpa [h1] using h'
        · rw [if_neg h1] at h'
          exact absurd (h' ▸ hs) (by simp [h1])
      · exact collapseWs_spaces h' hs

theorem collapseWs_ne_nil : ∀ {l : List Char}, ¬ l = [] → ¬ collapseWs l = []
  | [], h, _ => h rfl
  | [d], _, hc => by simp [collapseWs] at hc
  | c1 :: c2 :: rest, _, hc => by
    by_cases hb : isSpaceB c1 && isSpaceB c2
    · rw [collapseWs, if_pos hb] at hc
      exact collapseWs_ne_nil (by simp) hc
    · rw [collapseWs, if_neg hb] at hc
      simp at hc

theorem collapseWs_headSpace : ∀ l : List Char, headIsSpace (collapseWs l) = headIsSpace l
  | [] => rfl
  | [d] => by
    by_cases hd : isSpaceB d <;> simp [collapseWs, headIsSpace, hd, space_char_facts.1]
  | c1 :: c2 :: rest => by
    by_cases hb : isSpaceB c1 && isSpaceB c2
    · rw [collapseWs, if_pos hb, collapseWs_headSpace (c2 :: rest)]
      rcases Bool.and_eq_true_iff.mp hb with ⟨h1, h2⟩
      simp [headIsSpace, h1, h2]
    · rw [collapseWs, if_neg hb]
      by_cases h1 : isSpaceB c1 <;> simp [headIsSpace, h1, space_char_facts.1]

theorem getLast?_cons_of_ne_nil {x : Char} {L : List Char} (h : ¬ L = []) :
    (x :: L).getLast? = L.getLast? := by
  cases L with
  | nil => exact absurd rfl h
  | cons a t => exact List.getLast?_cons_cons ..

theorem collapseWs_tailSpace : ∀ l : List Char, tailIsSpace (collapseWs l) = tailIsSpace l
  | [] => rfl
  | [d] => by
    by_cases hd : isSpaceB d <;>
      simp [collapseWs, tailIsSpace, hd, space_char_facts.1]
  | c1 :: c2 :: rest => by
    have hr : tailIsSpace (c1 :: c2 :: rest) = tailIsSpace (c2 :: rest) := by
      unfold tailIsSpace
      rw [List.getLast?_cons_cons]
    by_cases hb : isSpaceB c1 && isSpaceB c2
    · rw [collapseWs, if_pos hb, collapseWs_tailSpace (c2 :: rest), hr]
    · rw [collapseWs, if_neg hb, hr, ← collapseWs_tailSpace (c2 :: rest)]
      unfold tailIsSpace
      rw [getLast?_cons_of_ne_nil (collapseWs_ne_nil (by simp))]

theorem chain'_collapseWs :
    ∀ l : List Char,
      (collapseWs l).Chain' (fun a b => ¬ (isSpaceB a = true ∧ isSpaceB b = true))
  | [] => by simp [collapseWs]
  | [d] => by simp [collapseWs]
  | c1 :: c2 :: rest => by
    by_cases hb : isSpaceB c1 && isSpaceB c2
    · rw [collapseWs, if_pos hb]
      exact chain'_collapseWs (c2 :: rest)
    · rw [collapseWs, if_neg hb]
      rw [List.chain'_cons']
      refine ⟨?_, chain'_collapseWs (c2 :: rest)⟩
      intro b hmem
      have hhead := collapseWs_headSpace (c2 :: rest)
      unfold headIsSpace at hhead
      rw [Option.mem_def.mp hmem] at hhead
      simp only [List.head?_cons] at hhead
      have hx : isSpaceB (if isSpaceB c1 then ' ' else c1) = isSpaceB c1 := by
        by_cases h1 : isSpaceB c1 <;> simp [h1, space_char_facts.1]
      rw [hx, hhead]
      intro hcon
      exact hb (Bool.and_eq_true_iff.mpr ⟨hcon.1, hcon.2⟩)

theorem collapseWs_eq_self :
    ∀ l : List Char,
      l.Chain' (fun a b => ¬ (isSpaceB a = true ∧ isSpaceB b = true)) →
      (∀ c ∈ l, isSpaceB c = true → c = ' ') → collapseWs l = l
  | [], _, _ => rfl
  | [d], _, hs => by
    by_cases hd : isSpaceB d
    · rw [collapseWs, if_pos hd, hs d (List.mem_singleton_self d) hd]
    · rw [collapseWs, if_neg hd]
  | c1 :: c2 :: rest, hc, hs => by
    have hrel := (List.chain'_cons.mp hc).1
    have hb : (isSpaceB c1 && isSpaceB c2) = false := by
      rcases Bool.eq_false_or_eq_true (isSpaceB c1 && isSpaceB c2) with h | h
      · exact absurd (Bool.and_eq_true_iff.mp h) hrel
      · exact h
    rw [collapseWs, if_neg (by simp [hb])]
    have hx : (if isSpaceB c1 then ' ' else c1) = c1 := by
      by_cases h1 : isSpaceB c1
      · rw [if_pos h1, hs c1 (List.mem_cons_self _ _) h1]
      · rw [if_neg h1]
    rw [hx, collapseWs_eq_self (c2 :: rest) (List.chain'_cons.mp hc).2
      (fun c hmem h => hs c (List.mem_cons_of_mem _ hmem) h)]

/-! ### Trim lemmas -/

theorem headIsSpace_dropWhile (l : List Char) :
    headIsSpace (l.dropWhile isSpaceB) = false := by
  induction l with
  | nil => rfl
  | cons c rest ih =>
    by_cases hc : isSpaceB c = true
    · rw [List.dropWhile_cons, if_pos hc]
      exact ih
    · rw [List.dropWhile_cons, if_neg hc]
      simpa [headIsSpace] using hc

theorem trimL_eq_self {l : List Char} (h : headIsSpace l = false) : trimL l = l := by
  cases l with
  | nil => rfl
  | cons c rest =>
    have hc : isSpaceB c = false := by simpa [headIsSpace] using h
    simp [trimL, List.dropWhile_cons, hc]

theorem trimR_eq_self {l : List Char} (h : tailIsSpace l = false) : trimR l = l := by
  have hrev : headIsSpace l.reverse = false := by rw [headIsSpace_reverse]; exact h
  have : l.reverse.dropWhile isSpaceB = l.reverse := by
    have := trimL_eq_self hrev
    simpa [trimL] using this
  simp [trimR, this]

theorem tailIsSpace_trimR (l : List Char) : tailIsSpace (trimR l) = false := by
  unfold trimR
  rw [← headIsSpace_reverse, List.reverse_reverse]
  exact headIsSpace_dropWhile l.reverse

theorem headIsSpace_trimR {l : List Char} (h : headIsSpace l = false) :
    headIsSpace (trimR l) = false := by
  have hpre : trimR l <+: l := by
    have hsuf : l.reverse.dropWhile isSpaceB <:+ l.reverse := List.dropWhile_suffix _
    have : (trimR l).reverse <:+ l.reverse := by
      simpa [trimR] using hsuf
    exact List.reverse_suffix.mp this
  obtain ⟨t, ht⟩ := hpre
  cases hX : trimR l with
  | nil => simp [headIsSpace]
  | cons c L =>
    rw [hX] at ht
    have hcl : headIsSpace l = isSpaceB c := by rw [← ht]; rfl
    show isSpaceB c = false
    rw [← hcl]
    exact h

theorem mem_trimL {c : Char} {l : List Char} (h : c ∈ trimL l) : c ∈ l :=
  (List.dropWhile_sublist _).subset h

theorem mem_trimR {c : Char} {l : List Char} (h : c ∈ trimR l) : c ∈ l := by
  have : c ∈ l.reverse.dropWhile isSpaceB := by simpa [trimR] using h
  have := (List.dropWhile_sublist _).subset this
  simpa using this

/-! ### Pointwise-fixed passes -/

theorem casefold_eq_self (l : List Char) (h : ∀ c ∈ l, foldChar c = c) :
    casefold l = l := by
  unfold casefold
  induction l with
  | nil => rfl
  | cons c rest ih =>
    rw [List.map_cons, h c (List.mem_cons_self _ _),
      ih (fun d hd => h d (List.mem_cons_of_mem _ hd))]

theorem stripPunct_eq_self (l : List Char) (h : ∀ c ∈ l, isPunctB c = false) :
    stripPunct l = l := by
  unfold stripPunct
  rw [List.filter_eq_self]
  intro a ha
  simp [h a ha]

/-! ### C4, amended -/

/-- **C4, amended.** The normalizer is a deterministic total function
(it is defined for every string, including the empty one), and it is
idempotent on every input containing none of the stripped punctuation
characters.  Full idempotence fails under the spec's rule order because
stripping punctuation after collapsing whitespace can expose a new
whitespace run (see the counterexample `"a - b"`). -/
theorem normalize_idempotent_punct_free (s : String)
    (h : ∀ c ∈ s.data, isPunctB c = false) :
    normalizeStr (normalizeStr s) = normalizeStr s := by
  suffices hK : normalizeKey (normalizeKey s.data) = normalizeKey s.data by
    simp [normalizeStr, hK]
  have hpa : ∀ c ∈ casefold s.data, isPunctB c = false := by
    intro c hc
    rcases List.mem_map.mp hc with ⟨d, hd, rfl⟩
    exact foldChar_notPunct d (h d hd)
  have hpb : ∀ c ∈ trimWs (casefold s.data), isPunctB c = false := by
    intro c hc
    exact hpa c (mem_trimL (mem_trimR hc))
  have hpm : ∀ c ∈ collapseWs (trimWs (casefold s.data)), isPunctB c = false := by
    intro c hc
    rcases mem_collapseWs hc with rfl | hc'
    · exact space_char_facts.2.1
    · exact hpb c hc'
  have hmkey : normalizeKey s.data = collapseWs (trimWs (casefold s.data)) := by
    unfold normalizeKey
    exact stripPunct_eq_self _ hpm
  have hfold : ∀ c ∈ collapseWs (trimWs (casefold s.data)), foldChar c = c := by
    intro c hc
    rcases mem_collapseWs hc with rfl | hc'
    · exact space_char_facts.2.2
    · rcases List.mem_map.mp (mem_trimL (mem_trimR hc')) with ⟨d, _, rfl⟩
      exact foldChar_idem d
  have hhead : headIsSpace (collapseWs (trimWs (casefold s.data))) = false := by
    rw [collapseWs_headSpace]
    exact headIsSpace_trimR (headIsSpace_dropWhile _)
  have htail : tailIsSpace (collapseWs (trimWs (casefold s.data))) = false := by
    rw [collapseWs_tailSpace]
    exact tailIsSpace_trimR _
  rw [hmkey]
  unfold normalizeKey
  rw [casefold_eq_self _ hfold]
  have htrim : trimWs (collapseWs (trimWs (casefold s.data)))
      = collapseWs (trimWs (casefold s.data)) := by
    show trimR (trimL (collapseWs (trimWs (casefold s.data))))
      = collapseWs (trimWs (casefold s.data))
    rw [trimL_eq_self hhead, trimR_eq_self htail]
  rw [htrim]
  rw [collapseWs_eq_self _ (chain'_collapseWs _)
    (fun c hc hs => collapseWs_spaces hc hs)]
  exact stripPunct_eq_self _ hpm

theorem normalize_idempotent_punct_free_witness :
    normalizeStr (normalizeStr "Ab  C") = normalizeStr "Ab  C" :=
  normalize_idempotent_punct_free "Ab  C" (by decide)

/-! ## C3: tiered matching (spec-modelled)

The backend sources (`backend/app/services/fund_service.py` for the
relational pass, `backend/app/services/search/elasticsearch_backend.py`
for the ranked index) are not part of this tree; both adapters below are
modelled from the spec's shared seven-tier contract. -/

/-- Modelled from the spec: a searchable Record — opaque identifier,
raw display name, raw short code, and the two optional normalized
search keys. -/
structure Record where
  id : String
  rawName : String
  rawCode : String
  nameNorm : Option String
  codeNorm : Option String
deriving DecidableEq

/-- Boolean prefix test on character lists. -/
def listPrefixB : List Char → List Char → Bool
  | [], _ => true
  | _ :: _, [] => false
  | a :: as, b :: bs => a == b && listPrefixB as bs

/-- Boolean substring test on character lists. -/
def listInfixB (q : List Char) : List Char → Bool
  | [] => q.isEmpty
  | c :: rest => listPrefixB q (c :: rest) || listInfixB q rest

/-- Prefix test on strings. -/
def strPrefixB (q s : String) : Bool := listPrefixB q.data s.data

/-- Substring test on strings. -/
def strInfixB (q s : String) : Bool := listInfixB q.data s.data

/-- Prefix test against an optional normalized key (a missing key never
matches). -/
def optPrefixB (q : String) : Option String → Bool
  | some s => strPrefixB q s
  | none => false

/-- Substring test against an optional normalized key. -/
def optInfixB (q : String) : Option String → Bool
  | some s => strInfixB q s
  | none => false

/-- Modelled from the spec: the mutually exclusive match tier of a
record for a normalized query term, most specific first — exact code,
exact name, prefix code, prefix name, substring code, substring name,
and the raw-field fallback reserved for records lacking normalized
keys.  `none` means no match. -/
def tierOf (q : String) (r : Record) : Option Nat :=
  if r.codeNorm = some q then some 1
  else if r.nameNorm = some q then some 2
  else if optPrefixB q r.codeNorm then some 3
  else if optPrefixB q r.nameNorm then some 4
  else if optInfixB q r.codeNorm then some 5
  else if optInfixB q r.nameNorm then some 6
  else if r.codeNorm.isNone && r.nameNorm.isNone
      && (strInfixB q r.rawCode || strInfixB q r.rawName) then some 7
  else none

/-- The tier as a number, with non-matches past every tier. -/
def tierRank (q : String) (r : Record) : Nat := (tierOf q r).getD 8

/-- The caller's within-tier order: sort key (name ascending), then
identifier as the final deterministic tiebreaker. -/
def recKey (r : Record) : String ×ₗ String := toLex (r.rawName, r.id)

/-- The within-tier order as a relation. -/
def baseLe (a b : Record) : Prop := recKey a ≤ recKey b

/-- The relational adapter's order: tier first, then the caller's sort
key, then identifier. -/
def sqlKey (q : String) (r : Record) : Nat ×ₗ (String ×ₗ String) :=
  toLex (tierRank q r, recKey r)

/-- The relational adapter's order as a relation. -/
def sqlLe (q : String) (a b : Record) : Prop := sqlKey q a ≤ sqlKey q b

instance : DecidableRel baseLe :=
  fun a b => inferInstanceAs (Decidable (recKey a ≤ recKey b))

instance (q : String) : DecidableRel (sqlLe q) :=
  fun a b => inferInstanceAs (Decidable (sqlKey q a ≤ sqlKey q b))

/-- Modelled from the spec: the Relational Store Adapter — a first pass
of normalized-field matching (tiers 1-6) ordered by tier, sort key and
id, followed by a second pass restricted to records with null
normalized fields matching raw fields (tier 7), ordered by sort key and
id.  An empty query term means no search: all records, ordered by sort
key and id. -/
def sqlSearch (q : String) (rs : List Record) : List Record :=
  if q = "" then List.insertionSort baseLe rs
  else
    List.insertionSort (sqlLe q)
        (rs.filter (fun r =>
          match tierOf q r with
          | some t => decide (t ≤ 6)
          | none => false))
      ++ List.insertionSort baseLe
          (rs.filter (fun r =>
            r.codeNorm.isNone && r.nameNorm.isNone
              && (strInfixB q r.rawCode || strInfixB q r.rawName)))

/-- Modelled from the spec: boost weights strictly decreasing from
tier 1 to tier 7. -/
def boost (t : Nat) : Nat := 8 - t

/-- The score of a matching record: the boost of its (unique, most
specific) tier. -/
def esScore (q : String) (r : Record) : Nat := boost (tierRank q r)

/-- The ranked-index order: score descending, then sort key, then
identifier. -/
def esKey (q : String) (r : Record) : Nat ×ₗ (String ×ₗ String) :=
  toLex (8 - esScore q r, recKey r)

/-- The ranked-index order as a relation. -/
def esLe (q : String) (a b : Record) : Prop := esKey q a ≤ esKey q b

instance (q : String) : DecidableRel (esLe q) :=
  fun a b => inferInstanceAs (Decidable (esKey q a ≤ esKey q b))

/-- Modelled from the spec: the Ranked Index Adapter — matching records
ordered by boosted score descending, then sort key, then identifier.
An empty query term means no search. -/
def esSearch (q : String) (rs : List Record) : List Record :=
  if q = "" then List.insertionSort baseLe rs
  else List.insertionSort (esLe q) (rs.filter (fun r => (tierOf q r).isSome))

theorem tierRank_le_8 (q : String) (r : Record) : tierRank q r ≤ 8 := by
  unfold tierRank tierOf
  split_ifs <;> simp

theorem sqlLe_tier {q : String} {a b : Record} (h : sqlLe q a b) :
    tierRank q a ≤ tierRank q b := by
  rcases (Prod.Lex.le_iff _ _).mp h with h' | ⟨h', _⟩
  · exact le_of_lt h'
  · exact le_of_eq h'

theorem esLe_tier {q : String} {a b : Record} (h : esLe q a b) :
    tierRank q a ≤ tierRank q b := by
  have ha := tierRank_le_8 q a
  have hb := tierRank_le_8 q b
  have hx : (8 : Nat) - esScore q a ≤ 8 - esScore q b := by
    rcases (Prod.Lex.le_iff _ _).mp h with h' | ⟨h', _⟩
    · exact le_of_lt h'
    · exact le_of_eq h'
  simp only [esScore, boost] at hx
  omega

theorem tierOf_of_nullNorm {q : String} {r : Record} (h1 : r.codeNorm = none)
    (h2 : r.nameNorm = none)
    (h3 : (strInfixB q r.rawCode || strInfixB q r.rawName) = true) :
    tierOf q r = some 7 := by
  simp [tierOf, h1, h2, h3, optPrefixB, optInfixB]

theorem tierRank_le_6_of_pass1 {q : String} {r : Record}
    (h : (match tierOf q r with
          | some t => decide (t ≤ 6)
          | none => false) = true) :
    tierRank q r ≤ 6 := by
  unfold tierRank
  cases ht : tierOf q r with
  | none => rw [ht] at h; simp at h
  | some t =>
    rw [ht] at h
    simpa using h

/-- **C3.** For every non-empty query term and every dataset, both
retrieval backends return results in tier-monotone order: a result in
tier `k` never follows one in tier `k+1` (or any later tier). -/
theorem tiered_search_tier_monotone (q : String) (rs : List Record) (hq : ¬ q = "") :
    List.Pairwise (fun a b => tierRank q a ≤ tierRank q b) (sqlSearch q rs) ∧
    List.Pairwise (fun a b => tierRank q a ≤ tierRank q b) (esSearch q rs) := by
  haveI hts : IsTotal Record (sqlLe q) := ⟨fun a b => le_total (sqlKey q a) (sqlKey q b)⟩
  haveI hrs : IsTrans Record (sqlLe q) :=
    ⟨fun a b c hab hbc => le_trans (α := Nat ×ₗ (String ×ₗ String)) hab hbc⟩
  haveI hte : IsTotal Record (esLe q) := ⟨fun a b => le_total (esKey q a) (esKey q b)⟩
  haveI hre : IsTrans Record (esLe q) :=
    ⟨fun a b c hab hbc => le_trans (α := Nat ×ₗ (String ×ₗ String)) hab hbc⟩
  constructor
  · rw [sqlSearch, if_neg hq]
    rw [List.pairwise_append]
    refine ⟨?_, ?_, ?_⟩
    · have hs : List.Pairwise (sqlLe q) (List.insertionSort (sqlLe q)
          (rs.filter (fun r =>
            match tierOf q r with
            | some t => decide (t ≤ 6)
            | none => false))) :=
        List.sorted_insertionSort (sqlLe q) _
      exact hs.imp (fun h => sqlLe_tier h)
    · apply List.pairwise_of_forall_mem_list
      intro a ha b hb
      have ha' := List.mem_filter.mp ((List.perm_insertionSort baseLe _).mem_iff.mp ha)
      have hb' := List.mem_filter.mp ((List.perm_insertionSort baseLe _).mem_iff.mp hb)
      have hconda := ha'.2
      have hcondb := hb'.2
      simp only [Bool.and_eq_true, Option.isNone_iff_eq_none] at hconda hcondb
      have h7a : tierRank q a = 7 := by
        rw [tierRank, tierOf_of_nullNorm hconda.1.1 hconda.1.2 hconda.2]
        rfl
      have h7b : tierRank q b = 7 := by
        rw [tierRank, tierOf_of_nullNorm hcondb.1.1 hcondb.1.2 hcondb.2]
        rfl
      omega
    · intro a ha b hb
      have ha' := List.mem_filter.mp ((List.perm_insertionSort (sqlLe q) _).mem_iff.mp ha)
      have h6 := tierRank_le_6_of_pass1 ha'.2
      have hb' := List.mem_filter.mp ((List.perm_insertionSort baseLe _).mem_iff.mp hb)
      have hcond := hb'.2
      simp only [Bool.and_eq_true, Option.isNone_iff_eq_none] at hcond
      have h7 : tierRank q b = 7 := by
        rw [tierRank, tierOf_of_nullNorm hcond.1.1 hcond.1.2 hcond.2]
        rfl
      omega
  · rw [esSearch, if_neg hq]
    have hs : List.Pairwise (esLe q)
        (List.insertionSort (esLe q) (rs.filter (fun r => (tierOf q r).isSome))) :=
      List.sorted_insertionSort (esLe q) _
    exact hs.imp (fun h => esLe_tier h)

/-- A concrete dataset: a record with normalized keys matching `ku` as
a code prefix (tier 3), and a legacy record without normalized keys
whose raw name contains `ku` (tier 7). -/
def c3Recs : List Record :=
  [⟨"R1", "Krungsri US Equity", "KUSX", some "krungsri us equity", some "kusx"⟩,
   ⟨"R2", "Legacy ku fund", "LEG1", none, none⟩]

theorem tiered_search_tier_monotone_witness :
    List.Pairwise (fun a b => tierRank "ku" a ≤ tierRank "ku" b) (sqlSearch "ku" c3Recs) ∧
    List.Pairwise (fun a b => tierRank "ku" a ≤ tierRank "ku" b) (esSearch "ku" c3Recs) :=
  tiered_search_tier_monotone "ku" c3Recs (by decide)
